import Mathlib

/-!
Verification of the Matrix-NX RS232 monitor core
(`src/MatrixRsr232GUIv3/matrix_nx_rs232_guiXall_compact.py`).

Shallow embedding conventions:
* Python strings are `List Char` (`Line`); lines delivered by
  `_readline_nonempty` before it returns `None` are a `List Line`.
* Python 64-bit floats are modelled as `ℚ` (the claims' numeric facts are
  exact at this level of abstraction; no rounding happens inside the engine).
* Serial I/O is an oracle: each transaction either yields the list of reply
  lines or raises (`Except`, the error payload being the exception text).
-/

abbrev Line := List Char

abbrev Frame := List Line

/-- ASCII model of Python `str.upper` on one character. -/
def upperChar (c : Char) : Char :=
  if 'a' ≤ c ∧ c ≤ 'z' then Char.ofNat (c.toNat - 32) else c

/-- Whitespace characters removed by Python `str.strip()`. -/
def isPySpace (c : Char) : Bool :=
  c = ' ' ∨ c = '\t' ∨ c = '\n' ∨ c = '\r' ∨ c = '\x0b' ∨ c = '\x0c'

/-- Python `s.strip()`. -/
def trimStr (s : Line) : Line :=
  ((s.dropWhile isPySpace).reverse.dropWhile isPySpace).reverse

/-- Python `s.upper()` (ASCII model). -/
def upperStr (s : Line) : Line := s.map upperChar

/-- Python `s.split(",")`: split at every comma, keeping empty pieces. -/
def splitComma : Line → List Line
  | [] => [[]]
  | c :: cs =>
    if c = ',' then [] :: splitComma cs
    else
      match splitComma cs with
      | t :: ts => (c :: t) :: ts
      | [] => [[c]]

/-- `[p.strip() for p in s.split(",")]`. -/
def strip_tokens (s : Line) : Frame := (splitComma s).map trimStr

def okChars : Line := "OK".data

def startsWithERR : Line → Bool
  | 'E' :: 'R' :: 'R' :: _ => true
  | _ => false

/-- `is_err_line`: `(s or "").strip().upper().startswith("ERR")`. -/
def is_err_line (s : Line) : Bool := startsWithERR (upperStr (trimStr s))

/-- A line that sets the terminator in `_read_frame_data_plus_ok`:
`su == "OK" or is_err_line(su)` with `su = s.upper()`. -/
def isTermLine (s : Line) : Bool :=
  (upperStr s == okChars) || is_err_line (upperStr s)

/-- `su == "OK"` for this line. -/
def okLine (s : Line) : Bool := upperStr s == okChars

/-- A non-terminator line whose comma-split trimmed tokens number exactly
`expected` (`expected_fields > 0 and len(parts) == expected_fields`). -/
def matchesExpected (expected : Nat) (s : Line) : Bool :=
  decide (0 < expected) && ((strip_tokens s).length == expected)

/-- Result triple of `_read_frame_data_plus_ok`:
`(data_parts, ok_seen, term)`. -/
structure Outcome where
  data_parts : Option Frame
  ok_seen : Bool
  term : Option Line
deriving DecidableEq

/-- The read loop of `SerialWorker._read_frame_data_plus_ok`, over the lines
returned by `_readline_nonempty` before the deadline (end of list = deadline
or read timeout). -/
def read_frame_aux (expected : Nat) : List Line → Option Frame → Bool → Option Line → Outcome
  | [], dp, ok, tm => ⟨dp, ok, tm⟩
  | s :: rest, dp, ok, tm =>
    if isTermLine s then
      if dp.isSome ∨ expected = 0 then ⟨dp, okLine s, some s⟩
      else read_frame_aux expected rest dp (okLine s) (some s)
    else if matchesExpected expected s then
      read_frame_aux expected rest (some (strip_tokens s)) ok tm
    else
      read_frame_aux expected rest dp ok tm

/-- `SerialWorker._read_frame_data_plus_ok(expected_fields)`. -/
def read_frame_data_plus_ok (expected : Nat) (lines : List Line) : Outcome :=
  read_frame_aux expected lines none false none

/-- Modelled from the spec: the `timedOut` flag of `ResponseOutcome`
(the code returns no such flag; spec section 4.2: neither frame nor
terminator before the deadline means `timedOut = true`). -/
def timedOut (o : Outcome) : Bool := o.data_parts.isNone && o.term.isNone

/-- `TempStats` dataclass; `maxlen` is the bound of the `deque`. -/
structure TempStats where
  window : List ℚ
  maxlen : Nat
  sum_ : ℚ
  mean : ℚ
  dev : ℚ
  bar_peak_pos : ℚ
  bar_peak_neg : ℚ
  t_bar_pos : ℚ
  t_bar_neg : ℚ
  latched_pos : ℚ
  latched_neg : ℚ
deriving DecidableEq

/-- `init_tempstats(n)`. -/
def init_tempstats (n : Nat) : TempStats :=
  { window := [], maxlen := n, sum_ := 0, mean := 0, dev := 0,
    bar_peak_pos := 0, bar_peak_neg := 0, t_bar_pos := 0, t_bar_neg := 0,
    latched_pos := 0, latched_neg := 0 }

/-- `update_tempstats(stats, value, hold_s, now_mono)`.  A full `deque`
drops its oldest element on `append`; `window[0]` is the head. -/
def update_tempstats (s : TempStats) (value : ℚ) (hold_s : ℚ) (now_mono : ℚ) : TempStats :=
  let sum1 := if s.window.length = s.maxlen then s.sum_ - s.window.headI else s.sum_
  let win1 := if s.window.length = s.maxlen then s.window.tail ++ [value] else s.window ++ [value]
  let sum2 := sum1 + value
  let mean := sum2 / ((max 1 win1.length : Nat) : ℚ)
  let dev := value - mean
  let lp := if dev > s.latched_pos then dev else s.latched_pos
  let ln := if dev < s.latched_neg then dev else s.latched_neg
  let bp1 := if dev > s.bar_peak_pos then dev else s.bar_peak_pos
  let tp1 := if dev > s.bar_peak_pos then now_mono else s.t_bar_pos
  let bn1 := if dev < s.bar_peak_neg then dev else s.bar_peak_neg
  let tn1 := if dev < s.bar_peak_neg then now_mono else s.t_bar_neg
  let bp2 := if now_mono - tp1 > hold_s then max dev 0 else bp1
  let tp2 := if now_mono - tp1 > hold_s then now_mono else tp1
  let bn2 := if now_mono - tn1 > hold_s then min dev 0 else bn1
  let tn2 := if now_mono - tn1 > hold_s then now_mono else tn1
  { window := win1, maxlen := s.maxlen, sum_ := sum2, mean := mean, dev := dev,
    bar_peak_pos := bp2, bar_peak_neg := bn2, t_bar_pos := tp2, t_bar_neg := tn2,
    latched_pos := lp, latched_neg := ln }

/-- One operation on a channel's statistics: an `update_tempstats` call, or
the per-channel effect of `MainWindow.reset_maxima`
(`latched_pos = 0.0; latched_neg = 0.0`). -/
inductive TSOp
  | upd (value hold_s now_mono : ℚ)
  | reset
deriving DecidableEq

def applyTSOp (s : TempStats) : TSOp → TempStats
  | .upd v h n => update_tempstats s v h n
  | .reset => { s with latched_pos := 0, latched_neg := 0 }

def applyTSOps (s : TempStats) : List TSOp → TempStats
  | [] => s
  | op :: ops => applyTSOps (applyTSOp s op) ops

/-! ### Decimal rendering and parsing

`float_to_de_str` is `f"{x:.3f}".replace(".", ",")` (all call sites use the
default `decimals = 3`).  The f-format prints the correctly rounded value at
three decimals; over the `ℚ` model this is rounding `|x| * 1000` to the
nearest integer (the tie direction of the underlying binary double is below
this abstraction).  Parsing models Python `float()` on fixed-point decimal
literals (optional sign, digits, optional fractional part; exponents,
`inf`/`nan` and `_` separators are outside the vocabulary the device and the
formatter produce). -/

/-- Base-10 digits, least significant first, by explicit fuel
(`fuel ≥ n` suffices). -/
def digitsFuel : Nat → Nat → List Nat
  | 0, _ => []
  | fuel + 1, n => if n = 0 then [] else n % 10 :: digitsFuel fuel (n / 10)

/-- Base-10 digits of `n`, least significant first. -/
def digits10 (n : Nat) : List Nat := digitsFuel n n

/-- Value of a least-significant-first digit list. -/
def ofDigitsLSB : List Nat → Nat
  | [] => 0
  | d :: ds => d + 10 * ofDigitsLSB ds

/-- The character for a decimal digit. -/
def digitChar (d : Nat) : Char := Char.ofNat (48 + d)

/-- Numeric value of a digit character. -/
def charVal (c : Char) : Nat := c.toNat - 48

/-- Value of a most-significant-first digit string. -/
def natFromDigits (cs : Line) : Nat := cs.foldl (fun acc c => 10 * acc + charVal c) 0

/-- Decimal rendering of a natural number, most significant digit first
(`"0"` for zero), as printed by the f-format's integer part. -/
def renderNat (n : Nat) : Line :=
  if n = 0 then ['0'] else ((digits10 n).map digitChar).reverse

/-- The three zero-padded fractional digits printed by `f"{x:.3f}"`
(argument below 1000). -/
def renderFrac (m : Nat) : Line :=
  (((digits10 m ++ List.replicate (3 - (digits10 m).length) 0).map digitChar)).reverse

/-- `float_to_de_str(x, 3)`: fixed-point rendering at three decimals with the
decimal point replaced by a comma. -/
def float_to_de_str (x : ℚ) : Line :=
  let n := (round (|x| * 1000)).toNat
  (if x < 0 then ['-'] else []) ++ renderNat (n / 1000) ++ ',' :: renderFrac (n % 1000)

/-- Python `float()` on an unsigned fixed-point literal:
digits, optionally followed by `.` and digits (at least one digit overall). -/
def parseUnsigned (cs : Line) : Option ℚ :=
  let ip := cs.takeWhile Char.isDigit
  match cs.dropWhile Char.isDigit with
  | [] => if ip = [] then none else some (natFromDigits ip)
  | '.' :: fp =>
    if (ip = [] ∧ fp = []) ∨ ¬ fp.all Char.isDigit then none
    else some ((natFromDigits ip : ℚ) + (natFromDigits fp : ℚ) / 10 ^ fp.length)
  | _ => none

/-- Python `float()` on a fixed-point literal with optional leading minus. -/
def parseDecimal : Line → Option ℚ
  | [] => parseUnsigned []
  | c :: rest =>
    if c = '-' then (parseUnsigned rest).map (fun q => -q)
    else parseUnsigned (c :: rest)

/-- Modelled from the spec: re-parsing a logged value, the comma mapped back
to a decimal point (the external logging consumer is not part of `src/`). -/
def parse_de (cs : Line) : Option ℚ :=
  parseDecimal (cs.map (fun c => if c = ',' then '.' else c))

/-- Python `float(s)` including the leading/trailing whitespace it accepts. -/
def pyFloat (s : Line) : Option ℚ := parseDecimal (trimStr s)

/-- `try_format_value_de(v)`. -/
def try_format_value_de (v : Line) : Line :=
  let s := trimStr v
  if s = [] then []
  else if ':' ∈ s then s
  else
    match parseDecimal s with
    | some x => float_to_de_str x
    | none => s

/-! ### Scheduler (`SerialWorker.run`, compact variant)

One iteration of the `while not self._stop` loop.  The manual queue is the
list of strings enqueued by `enqueue_manual`; the transport is an oracle:
`respA` is the outcome of the first write+read transaction of the tick and
`respB` of the second (used only by the R+D poll cycle), `Except.error e`
meaning an exception with text `e` raised by the transport (modelled at the
write, before any event of the exchange is emitted).  `now` is
`time.monotonic()` at the top of the tick and `nowEnd` at the
`next_cycle = max(next_cycle + interval_s, time.monotonic())` line. -/

inductive Mode
  | normal
  | rd
deriving DecidableEq

inductive Event
  | warn (msg : Line)
  | errorEv (msg : Line)
  | dataNormal (values : Frame) (ok : Bool)
  | dataRd (values : Frame) (ok_t ok_o : Bool)
  | termLine (s : Line)
  | disconnectedEv (msg : Line)
deriving DecidableEq

structure TickOracle where
  now : ℚ
  nowEnd : ℚ
  respA : Except Line (List Line)
  respB : Except Line (List Line)

structure TickResult where
  events : List Event
  next : ℚ
  queue : List Line
  brk : Bool
deriving DecidableEq

def kommPre : Line := "Kommunikationsfehler: ".data

def fehlerPre : Line := "<< Fehler: ".data

def gtgtPre : Line := ">> ".data

def ltltPre : Line := "<< ".data

def noAnswerMsg : Line := "<< (keine Antwort / Timeout)".data

def warnAllMsg : Line := "Warnung: OK fehlt (All?)".data

def warnTempsMsg : Line := "Warnung: OK fehlt (TEMPeratures)".data

def warnOthersMsg : Line := "Warnung: OK fehlt (OTHers)".data

def getrenntMsg : Line := "Getrennt".data

/-- The poll-or-sleep part of a tick (reached when no truthy manual command
was dequeued): sleep if `now < next_cycle`, else run the mode's poll cycle. -/
def pollPart (mode : Mode) (interval_s : ℚ) (q2 : List Line) (next_cycle : ℚ)
    (t : TickOracle) : TickResult :=
  if t.now < next_cycle then ⟨[], next_cycle, q2, false⟩
  else
    match mode with
    | .normal =>
      match t.respA with
      | .error e => ⟨[.errorEv (kommPre ++ e)], next_cycle, q2, true⟩
      | .ok lines =>
        let o := read_frame_data_plus_ok 14 lines
        let evs :=
          match o.data_parts with
          | some parts =>
            (if o.ok_seen = false then [Event.warn warnAllMsg] else [])
              ++ [Event.dataNormal parts o.ok_seen]
          | none => []
        ⟨evs, max (next_cycle + interval_s) t.nowEnd, q2, false⟩
    | .rd =>
      match t.respA with
      | .error e => ⟨[.errorEv (kommPre ++ e)], next_cycle, q2, true⟩
      | .ok linesT =>
        let oT := read_frame_data_plus_ok 10 linesT
        let wT := if oT.ok_seen = false then [Event.warn warnTempsMsg] else []
        match t.respB with
        | .error e => ⟨wT ++ [.errorEv (kommPre ++ e)], next_cycle, q2, true⟩
        | .ok linesO =>
          let oO := read_frame_data_plus_ok 7 linesO
          let wO := if oO.ok_seen = false then [Event.warn warnOthersMsg] else []
          let dataEvs :=
            match oT.data_parts, oO.data_parts with
            | none, none => []
            | tp, op =>
              [Event.dataRd (tp.getD (List.replicate 10 []) ++ op.getD (List.replicate 7 []))
                oT.ok_seen oO.ok_seen]
          ⟨wT ++ wO ++ dataEvs, max (next_cycle + interval_s) t.nowEnd, q2, false⟩

/-- One iteration of the scheduler loop.  A dequeued falsy (empty) command
falls through to the poll logic; a truthy one is stripped and, when still
non-empty, written and answered, without touching `next_cycle`. -/
def schedTick (mode : Mode) (interval_s : ℚ) (q : List Line) (next_cycle : ℚ)
    (t : TickOracle) : TickResult :=
  match q with
  | [] => pollPart mode interval_s [] next_cycle t
  | cmd :: rest =>
    if cmd = [] then pollPart mode interval_s rest next_cycle t
    else
      let c := trimStr cmd
      if c = [] then ⟨[], next_cycle, rest, false⟩
      else
        match t.respA with
        | .error e => ⟨[.termLine (fehlerPre ++ e)], next_cycle, rest, false⟩
        | .ok lines =>
          let evs :=
            Event.termLine (gtgtPre ++ c) ::
              (if lines = [] then [Event.termLine noAnswerMsg]
               else lines.map (fun ln => Event.termLine (ltltPre ++ ln)))
          ⟨evs, next_cycle, rest, false⟩

structure LoopOut where
  events : List Event
  closed : Bool
deriving DecidableEq

/-- The scheduler loop driven by a finite observation of ticks.  On `break`
the loop's epilogue runs: `_close_serial()` (`closed = true`) and the
`disconnected` emission.  An exhausted oracle means observation stopped
while the session was still running. -/
def schedLoop (mode : Mode) (interval_s : ℚ) :
    List TickOracle → List Line → ℚ → LoopOut
  | [], _, _ => ⟨[], false⟩
  | t :: ts, q, next =>
    let r := schedTick mode interval_s q next t
    if r.brk then ⟨r.events ++ [Event.disconnectedEv getrenntMsg], true⟩
    else
      let rest := schedLoop mode interval_s ts r.queue r.next
      ⟨r.events ++ rest.events, rest.closed⟩

/-! ### Mode-dependent field layout (`TEMP_IDX_NORMAL` / `TEMP_IDX_RD`) and
the statistics pass of `MainWindow.update_temp_table_display`. -/

inductive TKey
  | Reso
  | Vanadat
  | Diode
  | Housing
  | SHG
  | THG
deriving DecidableEq

def TEMP_IDX_NORMAL : TKey → Option Nat
  | .Housing => some 3
  | .Diode => some 4
  | .SHG => some 5
  | .THG => some 6
  | _ => none

def TEMP_IDX_RD : TKey → Option Nat
  | .Reso => some 0
  | .Vanadat => some 1
  | .Diode => some 2
  | .Housing => some 3
  | .SHG => some 4
  | .THG => some 5

def layoutOf : Mode → TKey → Option Nat
  | .normal => TEMP_IDX_NORMAL
  | .rd => TEMP_IDX_RD

/-- The statistics mutations of `update_temp_table_display(mode, values)`:
for each key of the active mode's index map whose field parses as a float,
`update_tempstats` is called; everything else (including the display-only
writes) leaves the per-channel statistics untouched.  `values` falsy or of
the wrong length updates nothing. -/
def statsUpdatePass (mode : Option Mode) (values : Option Frame) (hold_s now : ℚ)
    (stats : TKey → TempStats) : TKey → TempStats :=
  match mode, values with
  | some .normal, some vs =>
    if vs.length = 14 then
      fun k =>
        match TEMP_IDX_NORMAL k with
        | some idx =>
          match pyFloat (vs.getD idx []) with
          | some tq => update_tempstats (stats k) tq hold_s now
          | none => stats k
        | none => stats k
    else stats
  | some .rd, some vs =>
    if vs.length = 17 then
      fun k =>
        match TEMP_IDX_RD k with
        | some idx =>
          match pyFloat (vs.getD idx []) with
          | some tq => update_tempstats (stats k) tq hold_s now
          | none => stats k
        | none => stats k
    else stats
  | _, _ => stats

/-- A channel state with a positive bar peak stamped at t = 0, used for the
concrete peak-hold scenario of the spec. -/
def c6Stats : TempStats :=
  { window := [5], maxlen := 3, sum_ := 5, mean := 5, dev := 0,
    bar_peak_pos := 2, bar_peak_neg := -2, t_bar_pos := 0, t_bar_neg := 0,
    latched_pos := 2, latched_neg := -2 }

lemma latched_pos_le_update (s : TempStats) (v h n : ℚ) :
    s.latched_pos ≤ (update_tempstats s v h n).latched_pos := by
  simp only [update_tempstats]
  split_ifs <;> linarith

lemma update_latched_neg_le (s : TempStats) (v h n : ℚ) :
    (update_tempstats s v h n).latched_neg ≤ s.latched_neg := by
  simp only [update_tempstats]
  split_ifs <;> linarith

lemma ifMaxQ (x y : ℚ) : (if y < x then x else y) = max y x := by
  split_ifs with hc
  · exact (max_eq_right hc.le).symm
  · exact (max_eq_left (not_lt.mp hc)).symm

lemma ifMinQ (x y : ℚ) : (if x < y then x else y) = min y x := by
  split_ifs with hc
  · exact (min_eq_right hc.le).symm
  · exact (min_eq_left (not_lt.mp hc)).symm

/-- C5: `update_tempstats` maintains the running sum (subtracting the evicted
head exactly when the window is full, before adding the new value); after the
update `mean = sum / window.size` and `deviation = value − mean`; with
capacity 3 and inputs `[10, 12, 11]` the mean is `11.0` and the deviation
`0.0`, and a fourth input `20` (evicting `10`) gives mean `(12+11+20)/3` and
deviation `20` minus that mean. -/
theorem C5_running_sum_mean_dev (s : TempStats) (v h n : ℚ) (hml : 0 < s.maxlen) :
    ((update_tempstats s v h n).sum_
        = (if s.window.length = s.maxlen then s.sum_ - s.window.headI else s.sum_) + v)
    ∧ (update_tempstats s v h n).mean
        = (update_tempstats s v h n).sum_ / ((update_tempstats s v h n).window.length : ℚ)
    ∧ (update_tempstats s v h n).dev = v - (update_tempstats s v h n).mean
    ∧ (applyTSOps (init_tempstats 3) [.upd 10 5 0, .upd 12 5 0, .upd 11 5 0]).mean = 11
    ∧ (applyTSOps (init_tempstats 3) [.upd 10 5 0, .upd 12 5 0, .upd 11 5 0]).dev = 0
    ∧ (applyTSOps (init_tempstats 3)
        [.upd 10 5 0, .upd 12 5 0, .upd 11 5 0, .upd 20 5 0]).mean = (12 + 11 + 20) / 3
    ∧ (applyTSOps (init_tempstats 3)
        [.upd 10 5 0, .upd 12 5 0, .upd 11 5 0, .upd 20 5 0]).dev
      = 20 - (12 + 11 + 20) / 3 := by
  have hwin : (update_tempstats s v h n).window.length
      = if s.window.length = s.maxlen then s.maxlen else s.window.length + 1 := by
    simp only [update_tempstats]
    split <;> rename_i hfull
    · simp only [List.length_append, List.length_tail, List.length_cons, List.length_nil]
      omega
    · simp
  have hmax : max 1 (update_tempstats s v h n).window.length
      = (update_tempstats s v h n).window.length := by
    rw [hwin]
    split <;> omega
  refine ⟨?_, ?_, ?_, ?_, ?_, ?_, ?_⟩
  · simp only [update_tempstats]
  · conv_lhs => simp only [update_tempstats]
    rw [show ((max 1 (if s.window.length = s.maxlen then s.window.tail ++ [v]
        else s.window ++ [v]).length : Nat) : ℚ)
        = ((update_tempstats s v h n).window.length : ℚ) by
      rw [← hmax]; simp only [update_tempstats]]
    simp only [update_tempstats]
  · simp only [update_tempstats]
  · norm_num [applyTSOps, applyTSOp, update_tempstats, init_tempstats]
  · norm_num [applyTSOps, applyTSOp, update_tempstats, init_tempstats]
  · norm_num [applyTSOps, applyTSOp, update_tempstats, init_tempstats]
  · norm_num [applyTSOps, applyTSOp, update_tempstats, init_tempstats]

theorem C5_witness :
    0 < (init_tempstats 50).maxlen
      ∧ (update_tempstats (init_tempstats 50) 1 5 0).dev
        = 1 - (update_tempstats (init_tempstats 50) 1 5 0).mean :=
  ⟨by norm_num [init_tempstats],
   (C5_running_sum_mean_dev (init_tempstats 50) 1 5 0 (by norm_num [init_tempstats])).2.2.1⟩

/-- C6: a deviation exceeding `bar_peak_pos` sets the peak and stamps its
timestamp to `now` (symmetrically for `bar_peak_neg` via `min`); whenever
`now − timestamp > hold_s` with no new peak this call, the positive peak
decays to `max(deviation, 0)` and is restamped (symmetrically `min` for the
negative side); in particular with `hold_s = 1`, a peak stamped at `t = 0`
and no further extreme sample, an update at `t = 1.5` leaves `bar_peak_pos`
equal to `max(deviation, 0)`. -/
theorem C6_bar_peak_hold (s : TempStats) (v h n : ℚ) :
    ((update_tempstats s v h n).dev > s.bar_peak_pos → 0 ≤ h →
        (update_tempstats s v h n).bar_peak_pos = (update_tempstats s v h n).dev
          ∧ (update_tempstats s v h n).t_bar_pos = n)
    ∧ ((update_tempstats s v h n).dev < s.bar_peak_neg → 0 ≤ h →
        (update_tempstats s v h n).bar_peak_neg = (update_tempstats s v h n).dev
          ∧ (update_tempstats s v h n).t_bar_neg = n)
    ∧ ((update_tempstats s v h n).dev ≤ s.bar_peak_pos → n - s.t_bar_pos > h →
        (update_tempstats s v h n).bar_peak_pos = max (update_tempstats s v h n).dev 0
          ∧ (update_tempstats s v h n).t_bar_pos = n)
    ∧ (s.bar_peak_neg ≤ (update_tempstats s v h n).dev → n - s.t_bar_neg > h →
        (update_tempstats s v h n).bar_peak_neg = min (update_tempstats s v h n).dev 0
          ∧ (update_tempstats s v h n).t_bar_neg = n)
    ∧ (update_tempstats c6Stats 5 1 (3 / 2)).bar_peak_pos
      = max (update_tempstats c6Stats 5 1 (3 / 2)).dev 0 := by
  refine ⟨?_, ?_, ?_, ?_, ?_⟩
  · intro h1 h2
    simp only [update_tempstats] at h1 ⊢
    split_ifs at h1 ⊢ <;> first | exact ⟨rfl, rfl⟩ | linarith
  · intro h1 h2
    simp only [update_tempstats] at h1 ⊢
    split_ifs at h1 ⊢ <;> first | exact ⟨rfl, rfl⟩ | linarith
  · intro h1 h2
    simp only [update_tempstats] at h1 ⊢
    split_ifs at h1 ⊢ <;> first | exact ⟨rfl, rfl⟩ | linarith
  · intro h1 h2
    simp only [update_tempstats] at h1 ⊢
    split_ifs at h1 ⊢ <;> first | exact ⟨rfl, rfl⟩ | linarith
  · norm_num [update_tempstats, c6Stats]

theorem C6_witness :
    (update_tempstats c6Stats 5 1 (3 / 2)).dev ≤ c6Stats.bar_peak_pos
      ∧ (3 : ℚ) / 2 - c6Stats.t_bar_pos > 1
      ∧ (update_tempstats c6Stats 5 1 (3 / 2)).bar_peak_pos
        = max (update_tempstats c6Stats 5 1 (3 / 2)).dev 0
      ∧ (update_tempstats c6Stats 5 1 (3 / 2)).t_bar_pos = 3 / 2 :=
  ⟨by norm_num [update_tempstats, c6Stats], by norm_num [c6Stats],
   ((C6_bar_peak_hold c6Stats 5 1 (3 / 2)).2.2.1
      (by norm_num [update_tempstats, c6Stats]) (by norm_num [c6Stats])).1,
   ((C6_bar_peak_hold c6Stats 5 1 (3 / 2)).2.2.1
      (by norm_num [update_tempstats, c6Stats]) (by norm_num [c6Stats])).2⟩

/-- C7: across any sequence of updates (no reset), `latched_pos` is
non-decreasing and `latched_neg` non-increasing; one update sets
`latched_pos = max(latched_pos, deviation)` and
`latched_neg = min(latched_neg, deviation)`; an explicit reset sets both to
exactly `0`. -/
theorem C7_latched_monotone (s : TempStats) (ops : List TSOp)
    (hops : ∀ op ∈ ops, op ≠ TSOp.reset) :
    (s.latched_pos ≤ (applyTSOps s ops).latched_pos
      ∧ (applyTSOps s ops).latched_neg ≤ s.latched_neg)
    ∧ (∀ v h n,
        (update_tempstats s v h n).latched_pos
            = max s.latched_pos (update_tempstats s v h n).dev
          ∧ (update_tempstats s v h n).latched_neg
            = min s.latched_neg (update_tempstats s v h n).dev)
    ∧ (applyTSOp s TSOp.reset).latched_pos = 0
    ∧ (applyTSOp s TSOp.reset).latched_neg = 0 := by
  refine ⟨?_, ?_, rfl, rfl⟩
  · induction ops generalizing s with
    | nil => exact ⟨le_refl _, le_refl _⟩
    | cons op ops ih =>
      have hop : op ≠ TSOp.reset := hops op (List.mem_cons_self op ops)
      have hops2 : ∀ o ∈ ops, o ≠ TSOp.reset := fun o ho => hops o (List.mem_cons_of_mem op ho)
      cases op with
      | reset => exact absurd rfl hop
      | upd v h n =>
        have step := ih (update_tempstats s v h n) hops2
        exact ⟨le_trans (latched_pos_le_update s v h n) step.1,
               le_trans step.2 (update_latched_neg_le s v h n)⟩
  · intro v h n
    constructor
    · simp only [update_tempstats]
      exact ifMaxQ _ _
    · simp only [update_tempstats]
      exact ifMinQ _ _

theorem C7_witness :
    (∀ op ∈ [TSOp.upd 1 5 0], op ≠ TSOp.reset)
      ∧ (init_tempstats 3).latched_pos
          ≤ (applyTSOps (init_tempstats 3) [TSOp.upd 1 5 0]).latched_pos :=
  ⟨by decide, (C7_latched_monotone (init_tempstats 3) [TSOp.upd 1 5 0] (by decide)).1.1⟩

/-- C8: for any processed response, a channel not carried by the active
mode's field layout is left unchanged by the statistics update pass — not
zeroed, not overwritten, its latched statistics preserved; in particular
`Reso` and `Vanadat` in Normal mode. -/
theorem C8_absent_channels_untouched (m : Mode) (values : Option Frame) (h n : ℚ)
    (stats : TKey → TempStats) (k : TKey) (hk : layoutOf m k = none) :
    statsUpdatePass (some m) values h n stats k = stats k
    ∧ (∀ (values2 : Option Frame) (h2 n2 : ℚ) (stats2 : TKey → TempStats),
        statsUpdatePass (some Mode.normal) values2 h2 n2 stats2 TKey.Reso = stats2 TKey.Reso
          ∧ statsUpdatePass (some Mode.normal) values2 h2 n2 stats2 TKey.Vanadat
            = stats2 TKey.Vanadat) := by
  constructor
  · cases m with
    | normal =>
      simp only [layoutOf] at hk
      cases values with
      | none => rfl
      | some vs =>
        simp only [statsUpdatePass]
        split
        · simp [hk]
        · rfl
    | rd =>
      simp only [layoutOf] at hk
      cases k <;> simp [TEMP_IDX_RD] at hk
  · intro values2 h2 n2 stats2
    cases values2 with
    | none => exact ⟨rfl, rfl⟩
    | some vs =>
      constructor
      · simp only [statsUpdatePass]
        split
        · rfl
        · rfl
      · simp only [statsUpdatePass]
        split
        · rfl
        · rfl

lemma read_frame_aux_term_isSome (expected : Nat) :
    ∀ (lines : List Line) (dp : Option Frame) (ok : Bool) (t : Line),
      (read_frame_aux expected lines dp ok (some t)).term.isSome = true := by
  intro lines
  induction lines with
  | nil => intro dp ok t; rfl
  | cons s rest ih =>
    intro dp ok t
    simp only [read_frame_aux]
    split
    · split
      · rfl
      · exact ih dp (okLine s) s
    · split
      · exact ih (some (strip_tokens s)) ok t
      · exact ih dp ok t

lemma read_frame_aux_okSeen_of_term_none (expected : Nat) :
    ∀ (lines : List Line) (dp : Option Frame) (ok : Bool),
      (read_frame_aux expected lines dp ok none).term = none →
      (read_frame_aux expected lines dp ok none).ok_seen = ok := by
  intro lines
  induction lines with
  | nil => intro dp ok _; rfl
  | cons s rest ih =>
    intro dp ok hterm
    simp only [read_frame_aux] at hterm ⊢
    split at hterm <;> rename_i hT
    · split at hterm <;> rename_i hret
      · simp at hterm
      · have := read_frame_aux_term_isSome expected rest dp (okLine s) s
        rw [hterm] at this
        simp at this
    · split at hterm <;> rename_i hM
      · rw [if_neg (by simp [hT]), if_pos hM]
        exact ih (some (strip_tokens s)) ok hterm
      · rw [if_neg (by simp [hT]), if_neg hM]
        exact ih dp ok hterm

lemma read_frame_aux_last_match (expected : Nat) :
    ∀ (lines : List Line) (dp : Option Frame) (ok : Bool) (tm : Option Line),
      (∀ s ∈ lines, isTermLine s = false) →
      (read_frame_aux expected lines dp ok tm).data_parts
        = match (lines.filter (fun s => matchesExpected expected s)).getLast? with
          | some m => some (strip_tokens m)
          | none => dp := by
  intro lines
  induction lines with
  | nil => intro dp ok tm _; rfl
  | cons s rest ih =>
    intro dp ok tm hnt
    have hs : isTermLine s = false := hnt s (List.mem_cons_self s rest)
    have hrest : ∀ x ∈ rest, isTermLine x = false :=
      fun x hx => hnt x (List.mem_cons_of_mem s hx)
    simp only [read_frame_aux, hs, Bool.false_eq_true, if_false]
    split <;> rename_i hM
    · rw [ih (some (strip_tokens s)) ok tm hrest]
      rw [List.filter_cons_of_pos hM]
      cases hfr : rest.filter (fun x => matchesExpected expected x) with
      | nil => simp
      | cons b l =>
        rw [List.getLast?_cons_cons]
        cases hg : (b :: l).getLast? with
        | none => simp at hg
        | some m => rfl
    · rw [ih dp ok tm hrest]
      rw [List.filter_cons_of_neg (by simp [hM])]

/-- The captured frame always has exactly the expected token count. -/
lemma read_frame_aux_length (expected : Nat) :
    ∀ (lines : List Line) (dp : Option Frame) (ok : Bool) (tm : Option Line),
      (∀ p, dp = some p → p.length = expected) →
      ∀ p, (read_frame_aux expected lines dp ok tm).data_parts = some p →
        p.length = expected := by
  intro lines
  induction lines with
  | nil =>
    intro dp ok tm hdp p hp
    exact hdp p hp
  | cons s rest ih =>
    intro dp ok tm hdp p hp
    simp only [read_frame_aux] at hp
    split at hp <;> rename_i hT
    · split at hp <;> rename_i hret
      · exact hdp p hp
      · exact ih dp (okLine s) (some s) hdp p hp
    · split at hp <;> rename_i hM
      · refine ih (some (strip_tokens s)) ok tm ?_ p hp
        intro p2 hp2
        have hlen : (strip_tokens s).length = expected := by
          simp only [matchesExpected, Bool.and_eq_true, beq_iff_eq] at hM
          exact hM.2
        cases hp2
        exact hlen
      · exact ih dp ok tm hdp p hp

lemma read_frame_length (expected : Nat) (lines : List Line) (p : Frame)
    (hp : (read_frame_data_plus_ok expected lines).data_parts = some p) :
    p.length = expected :=
  read_frame_aux_length expected lines none false none (by intro p2 h; cases h) p hp

theorem C8_witness :
    layoutOf Mode.normal TKey.Reso = none
      ∧ statsUpdatePass (some Mode.normal)
          (some ["1".data, "2".data, "3".data, "4".data, "5".data, "6".data, "7".data,
                 "8".data, "9".data, "10".data, "11".data, "12".data, "13".data, "14".data])
          5 0 (fun _ => init_tempstats 50) TKey.Reso
        = (fun _ => init_tempstats 50) TKey.Reso :=
  ⟨by decide,
   (C8_absent_channels_untouched Mode.normal
      (some ["1".data, "2".data, "3".data, "4".data, "5".data, "6".data, "7".data,
             "8".data, "9".data, "10".data, "11".data, "12".data, "13".data, "14".data])
      5 0 (fun _ => init_tempstats 50) TKey.Reso (by decide)).1⟩

/-- C1 as stated is false: in `_read_frame_data_plus_ok` a later line with
the expected field count overwrites the already-captured frame; over
`["1,2,3,4", "5,6,7,8", "OK"]` with 4 expected fields, the returned frame is
the tokens of the second matching line, not the first. -/
theorem C1_counterexample :
    (read_frame_data_plus_ok 4 ["1,2,3,4".data, "5,6,7,8".data, "OK".data]).data_parts
        = some (strip_tokens "5,6,7,8".data)
      ∧ strip_tokens "5,6,7,8".data ≠ strip_tokens "1,2,3,4".data := by
  decide

/-- C1 amended: when several non-terminator lines match the expected field
count before the deadline, the captured frame is the tokens of the *last*
such line — a matching line replaces an already-captured frame. -/
theorem C1_amended_last_match (expected : Nat) :
    (∀ (s : Line) (rest : List Line) (f0 : Frame) (ok : Bool) (tm : Option Line),
        isTermLine s = false → matchesExpected expected s = true →
        read_frame_aux expected (s :: rest) (some f0) ok tm
          = read_frame_aux expected rest (some (strip_tokens s)) ok tm)
    ∧ (∀ lines : List Line, (∀ s ∈ lines, isTermLine s = false) →
        (read_frame_data_plus_ok expected lines).data_parts
          = ((lines.filter (fun s => matchesExpected expected s)).getLast?).map
              (fun m => strip_tokens m)) := by
  constructor
  · intro s rest f0 ok tm hT hM
    simp only [read_frame_aux]
    rw [if_neg (by simp [hT]), if_pos hM]
  · intro lines hnt
    rw [read_frame_data_plus_ok, read_frame_aux_last_match expected lines none false none hnt]
    cases (lines.filter (fun s => matchesExpected expected s)).getLast? with
    | none => rfl
    | some m => rfl

theorem C1_witness :
    (∀ s ∈ ["1,2,3,4".data, "5,6,7,8".data], isTermLine s = false)
      ∧ (read_frame_data_plus_ok 4 ["1,2,3,4".data, "5,6,7,8".data]).data_parts
        = ((["1,2,3,4".data, "5,6,7,8".data].filter
              (fun s => matchesExpected 4 s)).getLast?).map (fun m => strip_tokens m) :=
  ⟨by decide, (C1_amended_last_match 4).2 ["1,2,3,4".data, "5,6,7,8".data] (by decide)⟩

/-- C3: a captured frame with no terminator before the deadline is returned
with `term = None` and is not a timeout (`ok_seen` is then necessarily
false), and the Normal-mode poll cycle then emits the missing-OK `Warning`
followed by the `Data` event carrying that frame. -/
theorem C3_frame_without_terminator :
    (∀ (expected : Nat) (lines : List Line) (f : Frame),
        (read_frame_data_plus_ok expected lines).data_parts = some f →
        (read_frame_data_plus_ok expected lines).term = none →
        (read_frame_data_plus_ok expected lines).ok_seen = false
          ∧ timedOut (read_frame_data_plus_ok expected lines) = false)
    ∧ (∀ (interval next : ℚ) (t : TickOracle) (lines : List Line) (f : Frame),
        t.respA = .ok lines → ¬ t.now < next →
        (read_frame_data_plus_ok 14 lines).data_parts = some f →
        (read_frame_data_plus_ok 14 lines).term = none →
        (schedTick .normal interval [] next t).events
          = [Event.warn warnAllMsg, Event.dataNormal f false]) := by
  have hok : ∀ (expected : Nat) (lines : List Line),
      (read_frame_data_plus_ok expected lines).term = none →
      (read_frame_data_plus_ok expected lines).ok_seen = false :=
    fun expected lines h => read_frame_aux_okSeen_of_term_none expected lines none false h
  constructor
  · intro expected lines f hf hterm
    refine ⟨hok expected lines hterm, ?_⟩
    simp [timedOut, hf]
  · intro interval next t lines f hA hnow hf hterm
    have hseen := hok 14 lines hterm
    simp only [schedTick, pollPart, hA, if_neg hnow]
    simp [hf, hseen]

theorem C3_witness :
    (⟨0, 0, Except.ok ["1,2,3,4,5,6,7,8,9,10,11,12,13,14".data], Except.ok []⟩ :
        TickOracle).respA = Except.ok ["1,2,3,4,5,6,7,8,9,10,11,12,13,14".data]
      ∧ (schedTick Mode.normal 1 [] 0
          ⟨0, 0, Except.ok ["1,2,3,4,5,6,7,8,9,10,11,12,13,14".data], Except.ok []⟩).events
        = [Event.warn warnAllMsg,
           Event.dataNormal (strip_tokens "1,2,3,4,5,6,7,8,9,10,11,12,13,14".data) false] :=
  ⟨rfl,
   C3_frame_without_terminator.2 1 0
     ⟨0, 0, Except.ok ["1,2,3,4,5,6,7,8,9,10,11,12,13,14".data], Except.ok []⟩
     ["1,2,3,4,5,6,7,8,9,10,11,12,13,14".data]
     (strip_tokens "1,2,3,4,5,6,7,8,9,10,11,12,13,14".data)
     rfl (by norm_num) (by decide) (by decide)⟩

lemma schedTick_events_cases (mode : Mode) (i : ℚ) (q : List Line) (next : ℚ)
    (t : TickOracle) (ev : Event) (hev : ev ∈ (schedTick mode i q next t).events) :
    (∃ s, ev = Event.termLine s) ∨ ∃ q2, ev ∈ (pollPart mode i q2 next t).events := by
  cases q with
  | nil => exact Or.inr ⟨[], hev⟩
  | cons cmd rest =>
    simp only [schedTick] at hev
    split at hev
    · exact Or.inr ⟨rest, hev⟩
    · split at hev
      · simp at hev
      · split at hev
        · simp only [List.mem_singleton] at hev
          exact Or.inl ⟨_, hev⟩
        · simp only [List.mem_cons] at hev
          rcases hev with h | h
          · exact Or.inl ⟨_, h⟩
          · split at h
            · simp only [List.mem_singleton] at h
              exact Or.inl ⟨_, h⟩
            · rcases List.mem_map.mp h with ⟨ln, _, hln⟩
              exact Or.inl ⟨_, hln.symm⟩

lemma pollPart_dataNormal_length (mode : Mode) (i : ℚ) (q2 : List Line) (next : ℚ)
    (t : TickOracle) (p : Frame) (ok : Bool)
    (h : Event.dataNormal p ok ∈ (pollPart mode i q2 next t).events) : p.length = 14 := by
  simp only [pollPart] at h
  split at h
  · simp at h
  · cases mode with
    | normal =>
      cases hA : t.respA with
      | error e => rw [hA] at h; simp at h
      | ok lines =>
        rw [hA] at h
        simp only at h
        cases hdp : (read_frame_data_plus_ok 14 lines).data_parts with
        | none => rw [hdp] at h; simp at h
        | some parts =>
          rw [hdp] at h
          simp only [List.mem_append, List.mem_singleton] at h
          rcases h with h | h
          · split at h <;> simp at h
          · injection h with h1 h2
            rw [h1]
            exact read_frame_length 14 lines parts hdp
    | rd =>
      cases hA : t.respA with
      | error e => rw [hA] at h; simp at h
      | ok lT =>
        rw [hA] at h
        simp only at h
        cases hB : t.respB with
        | error e =>
          rw [hB] at h
          simp only [List.mem_append, List.mem_singleton] at h
          rcases h with h | h
          · split at h <;> simp at h
          · simp at h
        | ok lO =>
          rw [hB] at h
          simp only [List.mem_append, List.mem_singleton] at h
          rcases h with (h | h) | h
          · split at h <;> simp at h
          · split at h <;> simp at h
          · cases htp : (read_frame_data_plus_ok 10 lT).data_parts <;>
              cases hop : (read_frame_data_plus_ok 7 lO).data_parts <;>
              rw [htp, hop] at h <;> simp at h

lemma pollPart_dataRd_length (mode : Mode) (i : ℚ) (q2 : List Line) (next : ℚ)
    (t : TickOracle) (p : Frame) (o1 o2 : Bool)
    (h : Event.dataRd p o1 o2 ∈ (pollPart mode i q2 next t).events) : p.length = 17 := by
  simp only [pollPart] at h
  split at h
  · simp at h
  · cases mode with
    | normal =>
      cases hA : t.respA with
      | error e => rw [hA] at h; simp at h
      | ok lines =>
        rw [hA] at h
        simp only at h
        cases hdp : (read_frame_data_plus_ok 14 lines).data_parts with
        | none => rw [hdp] at h; simp at h
        | some parts =>
          rw [hdp] at h
          simp only [List.mem_append, List.mem_singleton] at h
          rcases h with h | h
          · split at h <;> simp at h
          · simp at h
    | rd =>
      cases hA : t.respA with
      | error e => rw [hA] at h; simp at h
      | ok lT =>
        rw [hA] at h
        simp only at h
        cases hB : t.respB with
        | error e =>
          rw [hB] at h
          simp only [List.mem_append, List.mem_singleton] at h
          rcases h with h | h
          · split at h <;> simp at h
          · simp at h
        | ok lO =>
          rw [hB] at h
          simp only [List.mem_append, List.mem_singleton] at h
          rcases h with (h | h) | h
          · split at h <;> simp at h
          · split at h <;> simp at h
          · cases htp : (read_frame_data_plus_ok 10 lT).data_parts <;>
              cases hop : (read_frame_data_plus_ok 7 lO).data_parts <;>
              rw [htp, hop] at h <;> simp only [List.mem_singleton] at h
            · exact absurd h (by simp)
            all_goals
              cases h
            · simp [read_frame_length 7 lO _ hop]
            · simp [read_frame_length 10 lT _ htp]
            · simp [read_frame_length 10 lT _ htp, read_frame_length 7 lO _ hop]

lemma pollPart_rd_nodata (i next : ℚ) (q2 : List Line) (t : TickOracle) (lT lO : List Line)
    (hA : t.respA = .ok lT) (hB : t.respB = .ok lO)
    (h10 : (read_frame_data_plus_ok 10 lT).data_parts = none)
    (h7 : (read_frame_data_plus_ok 7 lO).data_parts = none)
    (ev : Event) (hev : ev ∈ (pollPart .rd i q2 next t).events) : ∃ m, ev = Event.warn m := by
  simp only [pollPart] at hev
  split at hev
  · simp at hev
  · rw [hA] at hev
    simp only at hev
    rw [hB] at hev
    simp only [List.mem_append, List.mem_singleton] at hev
    rcases hev with (h | h) | h
    · split at h <;> simp at h
      exact ⟨_, h⟩
    · split at h <;> simp at h
      exact ⟨_, h⟩
    · rw [h10, h7] at h
      simp at h

/-- C10: every `Data` event carries a fixed-arity value vector — 14 fields
in Normal mode, 17 in Extended (R+D) mode (a missing sub-frame being padded
with 10 or 7 empty strings) — and no `Data` event is emitted when both R+D
sub-frames are missing. -/
theorem C10_data_event_arity :
    (∀ (mode : Mode) (i : ℚ) (q : List Line) (next : ℚ) (t : TickOracle) (p : Frame) (ok : Bool),
        Event.dataNormal p ok ∈ (schedTick mode i q next t).events → p.length = 14)
    ∧ (∀ (mode : Mode) (i : ℚ) (q : List Line) (next : ℚ) (t : TickOracle) (p : Frame)
        (o1 o2 : Bool),
        Event.dataRd p o1 o2 ∈ (schedTick mode i q next t).events → p.length = 17)
    ∧ (∀ (i next : ℚ) (q : List Line) (t : TickOracle) (lT lO : List Line),
        t.respA = .ok lT → t.respB = .ok lO →
        (read_frame_data_plus_ok 10 lT).data_parts = none →
        (read_frame_data_plus_ok 7 lO).data_parts = none →
        (∀ (p : Frame) (o1 o2 : Bool),
            Event.dataRd p o1 o2 ∉ (schedTick .rd i q next t).events)
          ∧ ∀ (p : Frame) (ok : Bool),
              Event.dataNormal p ok ∉ (schedTick .rd i q next t).events) := by
  refine ⟨?_, ?_, ?_⟩
  · intro mode i q next t p ok hev
    rcases schedTick_events_cases mode i q next t _ hev with ⟨s, hs⟩ | ⟨q2, h2⟩
    · cases hs
    · exact pollPart_dataNormal_length mode i q2 next t p ok h2
  · intro mode i q next t p o1 o2 hev
    rcases schedTick_events_cases mode i q next t _ hev with ⟨s, hs⟩ | ⟨q2, h2⟩
    · cases hs
    · exact pollPart_dataRd_length mode i q2 next t p o1 o2 h2
  · intro i next q t lT lO hA hB h10 h7
    constructor
    · intro p o1 o2 hev
      rcases schedTick_events_cases .rd i q next t _ hev with ⟨s, hs⟩ | ⟨q2, h2⟩
      · cases hs
      · rcases pollPart_rd_nodata i next q2 t lT lO hA hB h10 h7 _ h2 with ⟨m, hm⟩
        cases hm
    · intro p ok hev
      rcases schedTick_events_cases .rd i q next t _ hev with ⟨s, hs⟩ | ⟨q2, h2⟩
      · cases hs
      · rcases pollPart_rd_nodata i next q2 t lT lO hA hB h10 h7 _ h2 with ⟨m, hm⟩
        cases hm

theorem C10_witness :
    Event.dataNormal (strip_tokens "1,2,3,4,5,6,7,8,9,10,11,12,13,14".data) false
        ∈ (schedTick Mode.normal 1 [] 0
            ⟨0, 0, Except.ok ["1,2,3,4,5,6,7,8,9,10,11,12,13,14".data], Except.ok []⟩).events
      ∧ (strip_tokens "1,2,3,4,5,6,7,8,9,10,11,12,13,14".data).length = 14 :=
  ⟨by decide,
   C10_data_event_arity.1 Mode.normal 1 [] 0
     ⟨0, 0, Except.ok ["1,2,3,4,5,6,7,8,9,10,11,12,13,14".data], Except.ok []⟩
     (strip_tokens "1,2,3,4,5,6,7,8,9,10,11,12,13,14".data) false (by decide)⟩

/-- C4: after a completed (exception-free) poll cycle the scheduler sets
`next_cycle = max(next_cycle + interval_s, now)` — anchored to the previous
deadline — and a tick that serves a dequeued manual command leaves the poll
deadline unchanged. -/
theorem C4_deadline_anchoring :
    (∀ (mode : Mode) (i : ℚ) (cmd : Line) (rest : List Line) (next : ℚ) (t : TickOracle),
        cmd ≠ [] → (schedTick mode i (cmd :: rest) next t).next = next)
    ∧ (∀ (i next : ℚ) (t : TickOracle) (lines : List Line),
        t.respA = .ok lines → ¬ t.now < next →
        (schedTick .normal i [] next t).next = max (next + i) t.nowEnd
          ∧ (schedTick .normal i [] next t).brk = false)
    ∧ (∀ (i next : ℚ) (t : TickOracle) (lT lO : List Line),
        t.respA = .ok lT → t.respB = .ok lO → ¬ t.now < next →
        (schedTick .rd i [] next t).next = max (next + i) t.nowEnd
          ∧ (schedTick .rd i [] next t).brk = false) := by
  refine ⟨?_, ?_, ?_⟩
  · intro mode i cmd rest next t hcmd
    simp only [schedTick, if_neg hcmd]
    split
    · rfl
    · cases t.respA <;> rfl
  · intro i next t lines hA hnow
    simp only [schedTick, pollPart, if_neg hnow, hA]
    cases (read_frame_data_plus_ok 14 lines).data_parts <;> constructor <;> trivial
  · intro i next t lT lO hA hB hnow
    simp only [schedTick, pollPart, if_neg hnow, hA, hB]
    constructor <;> trivial

theorem C4_witness :
    ("X".data ≠ ([] : Line))
      ∧ (schedTick Mode.normal 1 ["X".data]
          7 ⟨0, 0, Except.ok [], Except.ok []⟩).next = 7
      ∧ ((⟨9, 10, Except.ok [], Except.ok []⟩ : TickOracle).respA = Except.ok []
          ∧ ¬ (9 : ℚ) < 7
          ∧ (schedTick Mode.normal 2 [] 7 ⟨9, 10, Except.ok [], Except.ok []⟩).next
            = max ((7 : ℚ) + 2) 10) :=
  ⟨by decide,
   C4_deadline_anchoring.1 Mode.normal 1 "X".data [] 7 ⟨0, 0, Except.ok [], Except.ok []⟩
     (by decide),
   rfl, by norm_num,
   (C4_deadline_anchoring.2.1 2 7 ⟨9, 10, Except.ok [], Except.ok []⟩ [] rfl (by norm_num)).1⟩

/-- C2 as stated is false: a transport failure while executing a dequeued
manual command is caught inside the loop — it emits only a `TerminalLine`
("<< Fehler: ..."), no `Error` event, the transport stays open and the loop
continues with the next tick. -/
theorem C2_counterexample :
    (schedLoop Mode.normal 1 [⟨0, 0, Except.error "boom".data, Except.ok []⟩]
        ["X".data] 0).closed = false
      ∧ (schedLoop Mode.normal 1 [⟨0, 0, Except.error "boom".data, Except.ok []⟩]
          ["X".data] 0).events
        = [Event.termLine "<< Fehler: boom".data] := by
  decide

/-- C2 amended: a transport failure raised while executing a poll-cycle
sub-command (either R+D sub-command included) is fatal — the
`Kommunikationsfehler` `Error` event is emitted, the loop breaks and the
session closes; a failure while executing a dequeued manual command is
caught: the tick emits only a `TerminalLine`, does not break, and the loop
continues. -/
theorem C2_amended_poll_errors_fatal :
    (∀ (mode : Mode) (i next : ℚ) (t : TickOracle) (e : Line) (ts : List TickOracle),
        t.respA = .error e → ¬ t.now < next →
        Event.errorEv (kommPre ++ e) ∈ (schedTick mode i [] next t).events
          ∧ (schedTick mode i [] next t).brk = true
          ∧ (schedLoop mode i (t :: ts) [] next).closed = true)
    ∧ (∀ (i next : ℚ) (t : TickOracle) (lT : List Line) (e : Line) (ts : List TickOracle),
        t.respA = .ok lT → t.respB = .error e → ¬ t.now < next →
        Event.errorEv (kommPre ++ e) ∈ (schedTick .rd i [] next t).events
          ∧ (schedTick .rd i [] next t).brk = true
          ∧ (schedLoop .rd i (t :: ts) [] next).closed = true)
    ∧ (∀ (mode : Mode) (i next : ℚ) (t : TickOracle) (cmd : Line) (rest : List Line)
        (e : Line) (ts : List TickOracle),
        cmd ≠ [] → trimStr cmd ≠ [] → t.respA = .error e →
        schedTick mode i (cmd :: rest) next t
            = ⟨[Event.termLine (fehlerPre ++ e)], next, rest, false⟩
          ∧ (schedLoop mode i (t :: ts) (cmd :: rest) next).closed
            = (schedLoop mode i ts rest next).closed) := by
  refine ⟨?_, ?_, ?_⟩
  · intro mode i next t e ts hA hnow
    have htick : schedTick mode i [] next t
        = ⟨[Event.errorEv (kommPre ++ e)], next, [], true⟩ := by
      cases mode <;> simp only [schedTick, pollPart, if_neg hnow, hA]
    refine ⟨by rw [htick]; exact List.mem_singleton.mpr rfl, by rw [htick], ?_⟩
    simp [schedLoop, htick]
  · intro i next t lT e ts hA hB hnow
    have htick : schedTick .rd i [] next t
        = ⟨(if (read_frame_data_plus_ok 10 lT).ok_seen = false
              then [Event.warn warnTempsMsg] else [])
            ++ [Event.errorEv (kommPre ++ e)], next, [], true⟩ := by
      simp only [schedTick, pollPart, if_neg hnow, hA, hB]
    refine ⟨by rw [htick]; simp, by rw [htick], ?_⟩
    simp [schedLoop, htick]
  · intro mode i next t cmd rest e ts hcmd htrim hA
    have htick : schedTick mode i (cmd :: rest) next t
        = ⟨[Event.termLine (fehlerPre ++ e)], next, rest, false⟩ := by
      simp only [schedTick, if_neg hcmd, if_neg htrim, hA]
    refine ⟨htick, ?_⟩
    simp [schedLoop, htick]

theorem C2_witness :
    ((⟨0, 0, Except.error "boom".data, Except.ok []⟩ : TickOracle).respA
        = Except.error "boom".data)
      ∧ ¬ (0 : ℚ) < 0
      ∧ (schedTick Mode.normal 1 [] 0 ⟨0, 0, Except.error "boom".data, Except.ok []⟩).brk
          = true
      ∧ (schedLoop Mode.normal 1 [⟨0, 0, Except.error "boom".data, Except.ok []⟩]
          [] 0).closed = true :=
  ⟨rfl, by norm_num,
   (C2_amended_poll_errors_fatal.1 Mode.normal 1 0
      ⟨0, 0, Except.error "boom".data, Except.ok []⟩ "boom".data [] rfl (by norm_num)).2.1,
   (C2_amended_poll_errors_fatal.1 Mode.normal 1 0
      ⟨0, 0, Except.error "boom".data, Except.ok []⟩ "boom".data [] rfl (by norm_num)).2.2⟩

lemma digitsFuel_mem_lt : ∀ (f n d : Nat), d ∈ digitsFuel f n → d < 10 := by
  intro f
  induction f with
  | zero => intro n d h; simp [digitsFuel] at h
  | succ f ih =>
    intro n d h
    simp only [digitsFuel] at h
    split at h
    · simp at h
    · rcases List.mem_cons.mp h with h | h
      · subst h; exact Nat.mod_lt _ (by norm_num)
      · exact ih _ _ h

lemma ofDigitsLSB_digitsFuel : ∀ (f n : Nat), n ≤ f → ofDigitsLSB (digitsFuel f n) = n := by
  intro f
  induction f with
  | zero => intro n h; interval_cases n; rfl
  | succ f ih =>
    intro n h
    simp only [digitsFuel]
    split <;> rename_i h0
    · simp [ofDigitsLSB, h0]
    · have hn : 0 < n := Nat.pos_of_ne_zero h0
      have hdiv : n / 10 ≤ f := by
        have := Nat.div_lt_self hn (by norm_num : (1:Nat) < 10)
        omega
      simp only [ofDigitsLSB, ih (n / 10) hdiv]
      exact Nat.mod_add_div n 10

lemma digitsFuel_length_le : ∀ (f n k : Nat), n < 10 ^ k → (digitsFuel f n).length ≤ k := by
  intro f
  induction f with
  | zero => intro n k _; simp [digitsFuel]
  | succ f ih =>
    intro n k hk
    simp only [digitsFuel]
    split <;> rename_i h0
    · simp
    · have hn : 0 < n := Nat.pos_of_ne_zero h0
      cases k with
      | zero => simp at hk; omega
      | succ k =>
        have : n / 10 < 10 ^ k := by
          rw [Nat.div_lt_iff_lt_mul (by norm_num : (0:Nat) < 10)]
          calc n < 10 ^ (k + 1) := hk
            _ = 10 ^ k * 10 := by ring
        simpa using ih (n / 10) k this

lemma ofDigitsLSB_replicate_zero : ∀ k, ofDigitsLSB (List.replicate k 0) = 0 := by
  intro k
  induction k with
  | zero => rfl
  | succ k ih => simp [List.replicate, ofDigitsLSB, ih]

lemma ofDigitsLSB_append_zeros (ds : List Nat) (k : Nat) :
    ofDigitsLSB (ds ++ List.replicate k 0) = ofDigitsLSB ds := by
  induction ds with
  | nil => simpa using ofDigitsLSB_replicate_zero k
  | cons d ds ih => simp [ofDigitsLSB, ih]

lemma digitChar_props : ∀ d, d < 10 →
    (digitChar d).isDigit = true ∧ charVal (digitChar d) = d
      ∧ digitChar d ≠ ',' ∧ digitChar d ≠ '-' := by decide

lemma natFromDigits_rev_map (ds : List Nat) (h : ∀ d ∈ ds, d < 10) :
    natFromDigits ((ds.map digitChar).reverse) = ofDigitsLSB ds := by
  induction ds with
  | nil => rfl
  | cons d ds ih =>
    have hd : d < 10 := h d (List.mem_cons_self d ds)
    have hds : ∀ x ∈ ds, x < 10 := fun x hx => h x (List.mem_cons_of_mem d hx)
    simp only [List.map_cons, List.reverse_cons, natFromDigits, List.foldl_append,
      List.foldl_cons, List.foldl_nil]
    have := ih hds
    simp only [natFromDigits] at this
    rw [this, (digitChar_props d hd).2.1, ofDigitsLSB]
    ring

lemma mapIdOn {α : Type} (g : α → α) : ∀ l : List α, (∀ x ∈ l, g x = x) → l.map g = l := by
  intro l
  induction l with
  | nil => intro _; rfl
  | cons a l ih =>
    intro h
    simp only [List.map_cons, h a (List.mem_cons_self a l),
      ih (fun x hx => h x (List.mem_cons_of_mem a hx))]

lemma takeWhile_all_append (p : Char → Bool) (c : Char) (l2 : Line) (hc : p c = false) :
    ∀ l1 : Line, (∀ x ∈ l1, p x = true) →
      (l1 ++ c :: l2).takeWhile p = l1 ∧ (l1 ++ c :: l2).dropWhile p = c :: l2 := by
  intro l1
  induction l1 with
  | nil =>
    intro _
    simp [List.takeWhile_cons, List.dropWhile_cons, hc]
  | cons a l1 ih =>
    intro h
    have ha : p a = true := h a (List.mem_cons_self a l1)
    have hl : ∀ x ∈ l1, p x = true := fun x hx => h x (List.mem_cons_of_mem a hx)
    simp [List.takeWhile_cons, List.dropWhile_cons, ha, (ih hl).1, (ih hl).2]

lemma renderNat_digits (n : Nat) : ∀ c ∈ renderNat n, Char.isDigit c = true := by
  intro c hc
  simp only [renderNat] at hc
  split at hc
  · simp at hc; subst hc; decide
  · rcases List.mem_map.mp (List.mem_reverse.mp hc) with ⟨d, hd, rfl⟩
    exact (digitChar_props d (digitsFuel_mem_lt n n d hd)).1

lemma digits10_ne_nil (n : Nat) (hn : n ≠ 0) : digits10 n ≠ [] := by
  intro hcon
  have h := ofDigitsLSB_digitsFuel n n (le_refl n)
  rw [show digitsFuel n n = digits10 n from rfl, hcon] at h
  simp only [ofDigitsLSB] at h
  exact hn h.symm

lemma renderNat_ne_nil (n : Nat) : renderNat n ≠ [] := by
  simp only [renderNat]
  split <;> rename_i h0
  · simp
  · intro hcon
    have hnil : digits10 n = [] := by
      rcases List.map_eq_nil_iff.mp (List.reverse_eq_nil_iff.mp hcon) with h
      exact h
    exact digits10_ne_nil n h0 hnil

lemma natFromDigits_renderNat (n : Nat) : natFromDigits (renderNat n) = n := by
  simp only [renderNat]
  split <;> rename_i h0
  · subst h0; decide
  · rw [natFromDigits_rev_map (digits10 n) (fun d hd => digitsFuel_mem_lt n n d hd)]
    exact ofDigitsLSB_digitsFuel n n (le_refl n)

lemma renderFrac_digits (m : Nat) : ∀ c ∈ renderFrac m, Char.isDigit c = true := by
  intro c hc
  simp only [renderFrac] at hc
  rcases List.mem_map.mp (List.mem_reverse.mp hc) with ⟨d, hd, rfl⟩
  rcases List.mem_append.mp hd with h | h
  · exact (digitChar_props d (digitsFuel_mem_lt m m d h)).1
  · rw [List.eq_of_mem_replicate h]
    decide

lemma renderFrac_length (m : Nat) (hm : m < 1000) : (renderFrac m).length = 3 := by
  have hlen : (digits10 m).length ≤ 3 :=
    digitsFuel_length_le m m 3 (by norm_num at hm ⊢; exact hm)
  simp only [renderFrac, List.length_reverse, List.length_map, List.length_append,
    List.length_replicate]
  omega

lemma natFromDigits_renderFrac (m : Nat) : natFromDigits (renderFrac m) = m := by
  have hall : ∀ d ∈ digits10 m ++ List.replicate (3 - (digits10 m).length) 0, d < 10 := by
    intro d hd
    rcases List.mem_append.mp hd with h | h
    · exact digitsFuel_mem_lt m m d h
    · rw [List.eq_of_mem_replicate h]; norm_num
  rw [show renderFrac m
      = (((digits10 m ++ List.replicate (3 - (digits10 m).length) 0).map digitChar)).reverse
      from rfl]
  rw [natFromDigits_rev_map _ hall, ofDigitsLSB_append_zeros]
  exact ofDigitsLSB_digitsFuel m m (le_refl m)

lemma parseUnsigned_render (a b : Nat) (hb : b < 1000) :
    parseUnsigned (renderNat a ++ '.' :: renderFrac b)
      = some ((a : ℚ) + (b : ℚ) / 1000) := by
  have hdot : Char.isDigit '.' = false := by decide
  obtain ⟨htake, hdrop⟩ :=
    takeWhile_all_append Char.isDigit '.' (renderFrac b) hdot (renderNat a) (renderNat_digits a)
  simp only [parseUnsigned, htake, hdrop]
  rw [if_neg]
  · rw [natFromDigits_renderNat, natFromDigits_renderFrac, renderFrac_length b hb]
    norm_num
  · rintro (⟨h1, _⟩ | h3)
    · exact renderNat_ne_nil a h1
    · exact h3 (by simp only [List.all_eq_true]; exact fun c hc => renderFrac_digits b c hc)

lemma isDigit_ne_dash (c : Char) (h : Char.isDigit c = true) : c ≠ '-' := by
  intro hc
  subst hc
  simp at h

lemma isDigit_map_comma (c : Char) (h : Char.isDigit c = true) :
    (if c = ',' then '.' else c) = c := by
  rw [if_neg]
  intro hc
  subst hc
  simp at h

lemma parseDecimal_cons (c : Char) (rest : Line) :
    parseDecimal (c :: rest)
      = if c = '-' then (parseUnsigned rest).map (fun q => -q)
        else parseUnsigned (c :: rest) := rfl

lemma parse_de_float (x : ℚ) :
    parse_de (float_to_de_str x)
      = some ((if x < 0 then (-1 : ℚ) else 1)
          * ((((round (|x| * 1000)).toNat / 1000 : Nat) : ℚ)
              + (((round (|x| * 1000)).toNat % 1000 : Nat) : ℚ) / 1000)) := by
  set n := (round (|x| * 1000)).toNat with hn
  have hmod : n % 1000 < 1000 := Nat.mod_lt _ (by norm_num)
  have hg1 : List.map (fun c => if c = ',' then '.' else c) (renderNat (n / 1000))
      = renderNat (n / 1000) :=
    mapIdOn _ _ (fun c hc => isDigit_map_comma c (renderNat_digits _ c hc))
  have hg2 : List.map (fun c => if c = ',' then '.' else c) (renderFrac (n % 1000))
      = renderFrac (n % 1000) :=
    mapIdOn _ _ (fun c hc => isDigit_map_comma c (renderFrac_digits _ c hc))
  have hmap : (float_to_de_str x).map (fun c => if c = ',' then '.' else c)
      = (if x < 0 then ['-'] else []) ++ renderNat (n / 1000)
          ++ '.' :: renderFrac (n % 1000) := by
    simp only [float_to_de_str, ← hn, List.map_append, List.map_cons, hg1, hg2]
    split <;> simp
  rw [parse_de, hmap]
  by_cases hx : x < 0
  · rw [if_pos hx, if_pos hx]
    simp only [List.append_assoc, List.singleton_append, List.cons_append, parseDecimal_cons,
      if_true, List.nil_append]
    rw [parseUnsigned_render _ _ hmod, Option.map_some']
    congr 1
    ring
  · rw [if_neg hx, if_neg hx, List.nil_append]
    cases hr : renderNat (n / 1000) with
    | nil => exact absurd hr (renderNat_ne_nil _)
    | cons c cs =>
      have hcd : Char.isDigit c = true := by
        refine renderNat_digits (n / 1000) c ?_
        rw [hr]; exact List.mem_cons_self c cs
      rw [List.cons_append, parseDecimal_cons, if_neg (isDigit_ne_dash c hcd)]
      rw [← List.cons_append, ← hr, parseUnsigned_render _ _ hmod]
      congr 1
      ring

lemma round_abs_nonneg (x : ℚ) : 0 ≤ round (|x| * 1000) := by
  rw [round_eq]
  refine Int.le_floor.mpr ?_
  push_cast
  positivity

/-- C9 amended: the decimal-comma formatter followed by re-parsing always
succeeds and recovers the value within the quantization tolerance of the
three-decimal format, `|x − parsed| ≤ 1/2000` — not within floating-point
tolerance. -/
theorem C9_amended_roundtrip (x : ℚ) :
    ∃ y : ℚ, parse_de (float_to_de_str x) = some y ∧ |x - y| ≤ 1 / 2000 := by
  set n := (round (|x| * 1000)).toNat with hn
  have h0 : 0 ≤ round (|x| * 1000) := round_abs_nonneg x
  have hcast : (n : ℚ) = ((round (|x| * 1000) : ℤ) : ℚ) := by
    rw [hn]
    exact_mod_cast congrArg (fun z : ℤ => (z : ℚ)) (Int.toNat_of_nonneg h0)
  refine ⟨(if x < 0 then (-1 : ℚ) else 1)
      * (((n / 1000 : Nat) : ℚ) + ((n % 1000 : Nat) : ℚ) / 1000),
    parse_de_float x, ?_⟩
  have hdm : 1000 * (n / 1000) + n % 1000 = n := Nat.div_add_mod n 1000
  have hval : ((n / 1000 : Nat) : ℚ) + ((n % 1000 : Nat) : ℚ) / 1000 = (n : ℚ) / 1000 := by
    rw [show ((n : ℚ)) = ((1000 * (n / 1000) + n % 1000 : Nat) : ℚ) by rw [hdm]]
    push_cast
    ring
  rw [hval]
  have habs : |(|x| * 1000) - (n : ℚ)| ≤ 1 / 2 := by
    rw [hcast]
    exact abs_sub_round (|x| * 1000)
  by_cases hx : x < 0
  · rw [if_pos hx]
    have hxa : |x| = -x := abs_of_neg hx
    have hre : x - (-1) * ((n : ℚ) / 1000) = -((|x| * 1000 - (n : ℚ)) / 1000) := by
      rw [hxa]; ring
    rw [hre, abs_neg, abs_div, abs_of_pos (by norm_num : (0 : ℚ) < 1000)]
    linarith [habs]
  · rw [if_neg hx]
    have hxa : |x| = x := abs_of_nonneg (not_lt.mp hx)
    have hre : x - 1 * ((n : ℚ) / 1000) = (|x| * 1000 - (n : ℚ)) / 1000 := by
      rw [hxa]; ring
    rw [hre, abs_div, abs_of_pos (by norm_num : (0 : ℚ) < 1000)]
    linarith [habs]

/-- C9 as stated is false: the formatter quantizes to three decimals, so
re-parsing does not recover the original value within floating-point
tolerance — `0.0001` formats to `"0,000"` and re-parses to `0`, a relative
error of 100%. -/
theorem C9_counterexample :
    parse_de (float_to_de_str (1 / 10000)) = some 0
      ∧ ((0 : ℚ) ≠ 1 / 10000)
      ∧ ¬ |(1 / 10000 : ℚ) - 0| ≤ 1 / 1000000 := by
  have hr : round (|(1 / 10000 : ℚ)| * 1000) = 0 := by
    rw [abs_of_pos (by norm_num : (0 : ℚ) < 1 / 10000), round_eq]
    norm_num [Int.floor_eq_iff]
  refine ⟨?_, by norm_num, by rw [sub_zero, abs_of_pos (by norm_num : (0 : ℚ) < 1 / 10000)]; norm_num⟩
  rw [parse_de_float, hr]
  norm_num
